import Mathlib

/-!
Shallow embedding of the alertmanager telegram bot core: the session store
and its consumption by the update router, the message chunker and dispatcher,
the jobs and targets menu builders, the webhook silence-button attachment,
and the argument and rendering paths of the alerts and silences commands.
Go strings are modelled as lists of characters; results of the external
alerting and monitoring services are passed in as parameters.
-/

/-- Go strings, modelled as lists of characters (Go len is the element count). -/
abbrev Str := List Char

/-- Embed a Lean string literal as a character list. -/
def str (s : String) : Str := s.toList

/-- Go strings.Split with a one-character separator: always returns at least
one piece, and the pieces do not contain the separator. -/
def stringsSplit (sep : Char) : Str → List Str
  | [] => [[]]
  | c :: cs =>
    if c = sep then [] :: stringsSplit sep cs
    else
      match stringsSplit sep cs with
      | [] => [[c]]
      | s :: ss => (c :: s) :: ss

/-- The unit of session state stored per button: a callback type plus string
parameters (the Callback struct). -/
structure Callback where
  type : Str
  data : List (Str × Str)
deriving DecidableEq

/-- The session store maps a token to a callback intent (the ttlcache keyed by
ksuid tokens; the TTL sweep is irrelevant to the sequential consumption claim). -/
abbrev Store := List (Str × Callback)

/-- Cache.Set: store a callback under a token, overwriting that token. -/
def storeSet (s : Store) (k : Str) (v : Callback) : Store :=
  (k, v) :: s.filter (fun p => p.1 ≠ k)

/-- Cache.Get: the entry stored under the token, if any. -/
def storeGet : Store → Str → Option Callback
  | [], _ => none
  | (k1, v) :: rest, k => if k1 = k then some v else storeGet rest k

/-- Cache.Remove: drop the entry stored under the token. -/
def storeRemove (s : Store) (k : Str) : Store :=
  s.filter (fun p => p.1 ≠ k)

/-- The callback branch of handleUpdates: Cache.Get, then on a hit
Cache.Remove before the intent is processed; on a miss the interaction is
dropped (NotFound). -/
def takeCallback (s : Store) (k : Str) : Option Callback × Store :=
  match storeGet s k with
  | none => (none, s)
  | some v => (some v, storeRemove s k)

theorem storeGet_storeSet (s : Store) (k : Str) (v : Callback) :
    storeGet (storeSet s k v) k = some v := by
  simp [storeSet, storeGet]

theorem storeGet_filter_self (s : Store) (k : Str) :
    storeGet (s.filter (fun p => p.1 ≠ k)) k = none := by
  induction s with
  | nil => simp [storeGet]
  | cons p rest ih =>
    by_cases h : p.1 = k
    · simpa [List.filter_cons, h] using ih
    · simpa [List.filter_cons, h, storeGet] using ih

theorem storeGet_storeRemove (s : Store) (k : Str) :
    storeGet (storeRemove s k) k = none :=
  storeGet_filter_self s k

/-- Claim C1: for every token stored by a Session Store put, the first take
returns the stored intent and removes the entry, and a second take of the same
token afterwards returns NotFound: the lookup-then-remove in the callback
router consumes the token, so it cannot be processed twice sequentially. -/
theorem put_take_consumes (cache : Store) (t : Str) (intent : Callback) :
    (takeCallback (storeSet cache t intent) t).1 = some intent ∧
    (takeCallback (storeSet cache t intent) t).2 = storeRemove (storeSet cache t intent) t ∧
    (takeCallback (takeCallback (storeSet cache t intent) t).2 t).1 = none := by
  have h1 : storeGet (storeSet cache t intent) t = some intent := storeGet_storeSet cache t intent
  refine ⟨?_, ?_, ?_⟩
  · simp [takeCallback, h1]
  · simp [takeCallback, h1]
  · simp [takeCallback, h1, storeGet_storeRemove]

/-! ## Message chunker (splitStringIntoChunks) -/

/-- The transport message length ceiling used by the chunker. -/
def maxMessageTextLength : Nat := 4096

/-- The loop of splitStringIntoChunks: walk the lines, flush the pending chunk
when appending the next line would exceed the limit, and append the newline
plus the line to the pending chunk in either case. -/
def chunksLoop (maxLen : Nat) : List Str → List Str → Str → List Str
  | [], chunks, chunk => chunks ++ [chunk]
  | s :: rest, chunks, chunk =>
    if maxLen < (chunk ++ '\n' :: s).length then
      chunksLoop maxLen rest (chunks ++ [chunk]) ('\n' :: s)
    else
      chunksLoop maxLen rest chunks (chunk ++ '\n' :: s)

/-- splitStringIntoChunks: split on newlines, then accumulate lines into
chunks of at most maxMessageTextLength characters. -/
def splitStringIntoChunks (text : Str) : List Str :=
  chunksLoop maxMessageTextLength (stringsSplit '\n' text) [] []

/-- Re-joining a line group the way the chunker builds chunks: each line is
prefixed by a newline. -/
def nlJoin (g : List Str) : Str := (g.map (fun s => '\n' :: s)).flatten

theorem stringsSplit_ne_nil (sep : Char) (l : Str) : stringsSplit sep l ≠ [] := by
  cases l with
  | nil => simp [stringsSplit]
  | cons c cs =>
    simp only [stringsSplit]
    split
    · simp
    · cases stringsSplit sep cs <;> simp

theorem nlJoin_stringsSplit (l : Str) : nlJoin (stringsSplit '\n' l) = '\n' :: l := by
  induction l with
  | nil => simp [stringsSplit, nlJoin]
  | cons c cs ih =>
    by_cases h : c = '\n'
    · subst h
      simp only [stringsSplit, if_pos rfl]
      simpa [nlJoin] using ih
    · simp only [stringsSplit, if_neg h]
      cases hs : stringsSplit '\n' cs with
      | nil => exact absurd hs (stringsSplit_ne_nil '\n' cs)
      | cons s ss =>
        rw [hs] at ih
        simp only [nlJoin, List.map_cons, List.flatten] at ih ⊢
        cases ih
        simp

theorem chunksLoop_join (maxLen : Nat) :
    ∀ (lines : List Str) (chunks : List Str) (chunk : Str),
      (chunksLoop maxLen lines chunks chunk).flatten = chunks.flatten ++ chunk ++ nlJoin lines := by
  intro lines
  induction lines with
  | nil => intro chunks chunk; simp [chunksLoop, nlJoin]
  | cons s rest ih =>
    intro chunks chunk
    simp only [chunksLoop]
    split
    · rw [ih]
      simp [nlJoin, List.append_assoc]
    · rw [ih]
      simp [nlJoin, List.append_assoc]

/-- Claim C2, amended: concatenating the chunks yields one newline followed by
the original text; each split keeps its separator newline at the head of the
following chunk, and one extra newline is prepended before the first line. -/
theorem splitStringIntoChunks_join (text : Str) :
    (splitStringIntoChunks text).flatten = '\n' :: text := by
  unfold splitStringIntoChunks
  rw [chunksLoop_join]
  simp [nlJoin_stringsSplit]

/-- Claim C2, counterexample: on the one-line input "a" the chunker returns a
single chunk (so no split newline could be restored), yet concatenation does
not reproduce the input. -/
theorem splitStringIntoChunks_not_inverse :
    (splitStringIntoChunks (str "a")).flatten ≠ str "a" ∧
    (splitStringIntoChunks (str "a")).length = 1 := by
  decide

theorem chunksLoop_ne_nil (maxLen : Nat) :
    ∀ (lines : List Str) (chunks : List Str) (chunk : Str),
      chunksLoop maxLen lines chunks chunk ≠ [] := by
  intro lines
  induction lines with
  | nil => intro chunks chunk; simp [chunksLoop]
  | cons s rest ih =>
    intro chunks chunk
    simp only [chunksLoop]
    split
    · exact ih (chunks ++ [chunk]) ('\n' :: s)
    · exact ih chunks (chunk ++ '\n' :: s)

/-- Every chunk is a concatenation of whole newline-prefixed lines: the output
is the image under nlJoin of a partition of the processed lines, the first
group extending the pending one and all later groups non-empty. -/
theorem chunksLoop_groups (maxLen : Nat) :
    ∀ (lines : List Str) (chunks : List Str) (g : List Str),
      ∃ groups : List (List Str),
        chunksLoop maxLen lines chunks (nlJoin g) = chunks ++ groups.map nlJoin ∧
        groups.flatten = g ++ lines ∧
        (∃ e, groups.head? = some (g ++ e)) ∧
        (∀ x ∈ groups.tail, x ≠ []) := by
  intro lines
  induction lines with
  | nil =>
    intro chunks g
    exact ⟨[g], by simp [chunksLoop], by simp, ⟨[], by simp⟩, by simp⟩
  | cons s rest ih =>
    intro chunks g
    simp only [chunksLoop]
    split
    · have hb : ('\n' :: s) = nlJoin [s] := by simp [nlJoin]
      rw [hb]
      obtain ⟨groups1, h1, h2, ⟨e, he⟩, h4⟩ := ih (chunks ++ [nlJoin g]) [s]
      refine ⟨g :: groups1, ?_, ?_, ⟨[], by simp⟩, ?_⟩
      · rw [h1]; simp
      · simp [h2]
      · intro x hx
        cases groups1 with
        | nil => simp at hx
        | cons a as =>
          simp only [List.head?_cons, Option.some.injEq] at he
          simp only [List.tail_cons] at hx h4
          rcases List.mem_cons.1 hx with rfl | hmem
          · rw [he]; simp
          · exact h4 x hmem
    · have hb : nlJoin g ++ '\n' :: s = nlJoin (g ++ [s]) := by simp [nlJoin]
      rw [hb]
      obtain ⟨groups1, h1, h2, ⟨e, he⟩, h4⟩ := ih chunks (g ++ [s])
      refine ⟨groups1, h1, by simp [h2], ⟨s :: e, by rw [he]; simp⟩, h4⟩

/-- All chunks stay within the limit provided every line fits in the limit
once its newline is prepended. -/
theorem chunksLoop_le (maxLen : Nat) :
    ∀ (lines : List Str) (chunks : List Str) (chunk : Str),
      (∀ s ∈ lines, s.length + 1 ≤ maxLen) →
      (∀ c ∈ chunks, c.length ≤ maxLen) →
      chunk.length ≤ maxLen →
      ∀ c ∈ chunksLoop maxLen lines chunks chunk, c.length ≤ maxLen := by
  intro lines
  induction lines with
  | nil =>
    intro chunks chunk _ hchunks hchunk c hc
    simp only [chunksLoop] at hc
    rcases List.mem_append.1 hc with h | h
    · exact hchunks c h
    · simp only [List.mem_singleton] at h
      exact h ▸ hchunk
  | cons s rest ih =>
    intro chunks chunk hlines hchunks hchunk
    simp only [chunksLoop]
    split
    · refine ih (chunks ++ [chunk]) ('\n' :: s) (fun x hx => hlines x (List.mem_cons_of_mem s hx)) ?_ ?_
      · intro c hc
        rcases List.mem_append.1 hc with h | h
        · exact hchunks c h
        · simp only [List.mem_singleton] at h
          exact h ▸ hchunk
      · simpa using hlines s (List.mem_cons_self s rest)
    · rename_i hnot
      refine ih chunks (chunk ++ '\n' :: s) (fun x hx => hlines x (List.mem_cons_of_mem s hx)) hchunks ?_
      exact Nat.not_lt.1 hnot

/-- Claim C3, amended: splits always happen at line boundaries (the chunks are
the nlJoin images of a partition of the split lines), and no chunk exceeds the
transport maximum provided each single line fits in it together with its
newline; a longer line is emitted as one oversized chunk. -/
theorem splitStringIntoChunks_bounds (text : Str) :
    (∃ groups : List (List Str),
      splitStringIntoChunks text = groups.map nlJoin ∧
      groups.flatten = stringsSplit '\n' text) ∧
    ((stringsSplit '\n' text).all (fun s => s.length + 1 ≤ maxMessageTextLength) = true →
      (splitStringIntoChunks text).all (fun c => c.length ≤ maxMessageTextLength) = true) := by
  constructor
  · obtain ⟨groups, h1, h2, _, _⟩ :=
      chunksLoop_groups maxMessageTextLength (stringsSplit '\n' text) [] []
    refine ⟨groups, ?_, by simpa using h2⟩
    have hz : nlJoin ([] : List Str) = ([] : Str) := by simp [nlJoin]
    rw [splitStringIntoChunks, ← hz, h1]
    simp
  · intro h
    simp only [List.all_eq_true, decide_eq_true_eq] at h ⊢
    intro c hc
    refine chunksLoop_le maxMessageTextLength (stringsSplit '\n' text) [] [] h ?_ ?_ c hc
    · intro x hx; simp at hx
    · simp

theorem splitStringIntoChunks_bounds_witness :
    ((stringsSplit '\n' (str "a\nb")).all (fun s => s.length + 1 ≤ maxMessageTextLength) = true) ∧
    ((splitStringIntoChunks (str "a\nb")).all (fun c => c.length ≤ maxMessageTextLength) = true) :=
  ⟨by decide, (splitStringIntoChunks_bounds (str "a\nb")).2 (by decide)⟩

theorem stringsSplit_eq_single (sep : Char) (l : Str) (h : ∀ c ∈ l, c ≠ sep) :
    stringsSplit sep l = [l] := by
  induction l with
  | nil => simp [stringsSplit]
  | cons c cs ih =>
    have hc : ¬ c = sep := h c (List.mem_cons_self c cs)
    simp only [stringsSplit, if_neg hc]
    rw [ih (fun x hx => h x (List.mem_cons_of_mem c hx))]

/-- Evaluation of the chunker on a single line of 4096 characters: the check
fires on the first line with an empty pending chunk, flushing an empty first
chunk and leaving a second chunk of 4097 characters. -/
theorem splitStringIntoChunks_replicate :
    splitStringIntoChunks (List.replicate 4096 'a') =
      [[], '\n' :: List.replicate 4096 'a'] := by
  have hs : stringsSplit '\n' (List.replicate 4096 'a') = [List.replicate 4096 'a'] := by
    refine stringsSplit_eq_single '\n' _ ?_
    intro c hc
    rw [List.eq_of_mem_replicate hc]
    decide
  rw [splitStringIntoChunks, hs]
  simp only [chunksLoop]
  rw [if_pos]
  · rfl
  · rw [List.nil_append, List.length_cons, List.length_replicate]
    decide

/-- Claim C3, counterexample: on a single line of 4096 characters the second
chunk has 4097 characters, exceeding the transport maximum of 4096. -/
theorem splitStringIntoChunks_overlong_line :
    (splitStringIntoChunks (List.replicate 4096 'a')).all
      (fun c => c.length ≤ maxMessageTextLength) = false := by
  rw [splitStringIntoChunks_replicate]
  simp only [List.all_cons, List.all_nil, List.length_cons, List.length_replicate]
  decide

/-! ## Message dispatcher (sendMessage) -/

/-- An inline keyboard button: visible label and callback data (the token). -/
structure Button where
  label : Str
  data : Str
deriving DecidableEq

/-- An inline keyboard: rows of buttons. -/
abbrev KB := List (List Button)

/-- The tgbotapi.Chattable values sendMessage dispatches on. -/
inductive Chattable
  | messageConfig (chatID : Int) (text : Str) (parseMode : Str) (replyMarkup : Option KB)
  | editMessageText (chatID : Int) (messageID : Int) (text : Str) (parseMode : Str)
      (replyMarkup : Option KB)
  | deleteMessage (chatID : Int) (messageID : Int)
  | editMessageReplyMarkup (chatID : Int) (messageID : Int) (markup : KB)
deriving DecidableEq

/-- One outbound transport call issued by the dispatcher. -/
inductive TransportOp
  | send (chatID : Int) (text : Str) (parseMode : Str) (replyMarkup : Option KB)
  | editText (chatID : Int) (messageID : Int) (text : Str) (parseMode : Str)
      (replyMarkup : Option KB)
  | delete (chatID : Int) (messageID : Int)
  | editMarkup (chatID : Int) (messageID : Int) (markup : KB)
deriving DecidableEq

/-- The chunk loop shared by the send paths: chunk i becomes a new message and
only the chunk with i equal to the last index carries the reply markup. -/
def sendChunks (chatID : Int) (parseMode : Str) (replyMarkup : Option KB)
    (chunks : List Str) : List TransportOp :=
  (List.range chunks.length).map fun i =>
    .send chatID (chunks.getD i []) parseMode
      (if i = chunks.length - 1 then replyMarkup else none)

/-- sendMessage, modelled as the sequence of transport calls issued when every
call succeeds (the flood-control retry loop repeats a failing call and is
invisible in the success trace). -/
def sendMessage : Chattable → List TransportOp
  | .messageConfig chatID text pm mk =>
    sendChunks chatID pm mk (splitStringIntoChunks text)
  | .editMessageText chatID msgID text pm mk =>
    let chunks := splitStringIntoChunks text
    if 1 < chunks.length then
      .delete chatID msgID :: sendChunks chatID pm mk chunks
    else
      [.editText chatID msgID text pm mk]
  | .deleteMessage chatID msgID => [.delete chatID msgID]
  | .editMessageReplyMarkup chatID msgID kb => [.editMarkup chatID msgID kb]

theorem sendChunks_length (chatID : Int) (pm : Str) (mk : Option KB)
    (chunks : List Str) : (sendChunks chatID pm mk chunks).length = chunks.length := by
  simp [sendChunks]

/-- Claim C9, amended: the chunker always returns a non-empty list, so a new
message dispatch performs at least one send; every chunk after the first
begins with a newline, and the first chunk begins with a newline unless it is
empty (which happens only when the first line alone overflows the limit). -/
theorem splitStringIntoChunks_shape (text : Str) (chatID : Int) (pm : Str)
    (mk : Option KB) :
    splitStringIntoChunks text ≠ [] ∧
    (splitStringIntoChunks text).tail.all (fun c => c.head? = some '\n') = true ∧
    ((splitStringIntoChunks text).headD [] = [] ∨
      ((splitStringIntoChunks text).headD []).head? = some '\n') ∧
    0 < (sendMessage (.messageConfig chatID text pm mk)).length := by
  have hne : splitStringIntoChunks text ≠ [] :=
    chunksLoop_ne_nil maxMessageTextLength (stringsSplit '\n' text) [] []
  obtain ⟨groups, h1, _, ⟨e, he⟩, h4⟩ :=
    chunksLoop_groups maxMessageTextLength (stringsSplit '\n' text) [] []
  have hz : nlJoin ([] : List Str) = ([] : Str) := by simp [nlJoin]
  have hchunks : splitStringIntoChunks text = groups.map nlJoin := by
    rw [splitStringIntoChunks, ← hz, h1]; simp
  refine ⟨hne, ?_, ?_, ?_⟩
  · cases groups with
    | nil => simp at he
    | cons g0 gs =>
      rw [hchunks]
      simp only [List.map_cons, List.tail_cons, List.all_eq_true, decide_eq_true_eq]
      intro c hc
      obtain ⟨x, hxmem, rfl⟩ := List.mem_map.1 hc
      have hxne : x ≠ [] := h4 x (by simpa using hxmem)
      cases x with
      | nil => exact absurd rfl hxne
      | cons y ys => simp [nlJoin]
  · cases groups with
    | nil => simp at he
    | cons g0 gs =>
      rw [hchunks]
      cases g0 with
      | nil => left; simp [nlJoin]
      | cons y ys => right; simp [nlJoin]
  · have : (sendMessage (.messageConfig chatID text pm mk)).length =
        (splitStringIntoChunks text).length := by
      simp [sendMessage, sendChunks_length]
    rw [this]
    exact List.length_pos.2 hne

/-- Claim C9, counterexample: on a single line of 4096 characters the first
returned chunk is empty and so does not begin with a newline. -/
theorem splitStringIntoChunks_first_chunk_empty :
    ((splitStringIntoChunks (List.replicate 4096 'a')).headD ['x']).head? ≠ some '\n' := by
  rw [splitStringIntoChunks_replicate, List.headD_cons]
  decide

theorem range_map_getD {α β : Type} (l : List α) (d : α) (f : α → β) :
    (List.range l.length).map (fun i => f (l.getD i d)) = l.map f := by
  induction l with
  | nil => simp
  | cons a as ih =>
    rw [List.length_cons, List.range_succ_eq_map]
    simp only [List.map_cons, List.map_map, List.getD_cons_zero]
    refine congrArg (f a :: ·) ?_
    have hcomp : ((fun i => f ((a :: as).getD i d)) ∘ Nat.succ) =
        fun i => f (as.getD i d) := by
      funext i; rfl
    rw [hcomp, ih]

theorem getD_concat_length {α : Type} (l : List α) (c d : α) :
    (l ++ [c]).getD l.length d = c := by
  induction l with
  | nil => simp
  | cons a as ih => simp [List.getD_cons_succ, ih]

theorem sendChunks_concat (chatID : Int) (pm : Str) (mk : Option KB)
    (cs : List Str) (c : Str) :
    sendChunks chatID pm mk (cs ++ [c]) =
      cs.map (fun x => TransportOp.send chatID x pm none) ++
        [TransportOp.send chatID c pm mk] := by
  unfold sendChunks
  have hlen : (cs ++ [c]).length = cs.length + 1 := by simp
  rw [hlen, List.range_succ, List.map_append]
  refine congrArg₂ (· ++ ·) ?_ ?_
  · have hmem : ∀ i ∈ List.range cs.length,
        (TransportOp.send chatID ((cs ++ [c]).getD i []) pm
          (if i = cs.length + 1 - 1 then mk else none)) =
        TransportOp.send chatID (cs.getD i []) pm none := by
      intro i hi
      have hilt : i < cs.length := List.mem_range.1 hi
      rw [List.getD_append _ _ _ _ hilt, if_neg (by omega)]
    rw [List.map_congr_left hmem]
    exact range_map_getD cs [] (fun x => TransportOp.send chatID x pm none)
  · simp [getD_concat_length]

/-- Claim C4: an edit dispatch whose new text needs more than one chunk issues
exactly one delete of the original message followed by one send per chunk with
the reply markup only on the last; an edit whose text fits one chunk issues
exactly one edit call and nothing else. -/
theorem sendMessage_edit_plan (chatID msgID : Int) (text pm : Str)
    (mk : Option KB) :
    sendMessage (.editMessageText chatID msgID text pm mk) =
      if 1 < (splitStringIntoChunks text).length then
        TransportOp.delete chatID msgID ::
          ((splitStringIntoChunks text).dropLast.map
              (fun c => TransportOp.send chatID c pm none) ++
            [TransportOp.send chatID ((splitStringIntoChunks text).getLastD []) pm mk])
      else
        [TransportOp.editText chatID msgID text pm mk] := by
  have hne : splitStringIntoChunks text ≠ [] :=
    chunksLoop_ne_nil maxMessageTextLength (stringsSplit '\n' text) [] []
  rcases List.eq_nil_or_concat (splitStringIntoChunks text) with h | ⟨cs, c, h⟩
  · exact absurd h hne
  · rw [List.concat_eq_append] at h
    simp only [sendMessage, h]
    split
    · rw [sendChunks_concat, List.dropLast_concat, List.getLastD_concat]
    · rfl

/-! ## Menu builders (newJobsKB, newTargetsKB)

The monitoring and alerting service results are parameters: getAlerts j is
none when the per-item GetAlerts call fails and some n when it returns n
alerts. The ksuid tokens created for the cache entries are modelled by the
fresh sequence indexed by the number of entries created so far. -/

/-- The button loop of newJobsKB: one button per job whose alert lookup
succeeds, rows flushed at the configured width, a trailing partial row, and a
final close-menu row. -/
def jobsLoop (kbRows : Nat) (pOK pFail : Str) (fresh : Nat → Str)
    (getAlerts : Str → Option Nat) : List Str → Nat → KB → List Button → KB
  | [], k, kb, r =>
    (if 0 < r.length then kb ++ [r] else kb) ++ [[⟨str "Close menu", fresh k⟩]]
  | l :: ls, k, kb, r =>
    match getAlerts l with
    | none => jobsLoop kbRows pOK pFail fresh getAlerts ls k kb r
    | some n =>
      let btn : Button := ⟨(if n = 0 then pOK else pFail) ++ l, fresh k⟩
      let r1 := r ++ [btn]
      if r1.length = kbRows then
        jobsLoop kbRows pOK pFail fresh getAlerts ls (k + 1) (kb ++ [r1]) []
      else
        jobsLoop kbRows pOK pFail fresh getAlerts ls (k + 1) kb r1

/-- newJobsKB on a successful job-name query. -/
def newJobsKB (kbRows : Nat) (pOK pFail : Str) (fresh : Nat → Str)
    (getAlerts : Str → Option Nat) (labels : List Str) : KB :=
  jobsLoop kbRows pOK pFail fresh getAlerts labels 0 [] []

theorem jobsLoop_structure (kbRows : Nat) (pOK pFail : Str) (fresh : Nat → Str)
    (getAlerts : Str → Option Nat) :
    ∀ (labels : List Str) (k : Nat) (kb : KB) (r : List Button),
      ∃ rows : KB,
        jobsLoop kbRows pOK pFail fresh getAlerts labels k kb r =
          rows ++ [[⟨str "Close menu",
            fresh (k + labels.countP (fun l => (getAlerts l).isSome))⟩]] ∧
        rows.flatten.map Button.label =
          (kb.flatten ++ r).map Button.label ++
            labels.filterMap
              (fun l => (getAlerts l).map (fun n => (if n = 0 then pOK else pFail) ++ l)) := by
  intro labels
  induction labels with
  | nil =>
    intro k kb r
    refine ⟨if 0 < r.length then kb ++ [r] else kb, by simp [jobsLoop], ?_⟩
    by_cases hr : 0 < r.length
    · simp [hr]
    · have hz : r = [] := List.length_eq_zero.1 (Nat.eq_zero_of_not_pos hr)
      simp [hr, hz]
  | cons l ls ih =>
    intro k kb r
    cases hga : getAlerts l with
    | none =>
      obtain ⟨rows, h1, h2⟩ := ih k kb r
      have harg : k + (l :: ls).countP (fun x => (getAlerts x).isSome) =
          k + ls.countP (fun x => (getAlerts x).isSome) := by
        rw [List.countP_cons]
        simp [hga]
      refine ⟨rows, ?_, ?_⟩
      · rw [harg]
        simpa [jobsLoop, hga] using h1
      · rw [List.filterMap_cons]
        simpa [hga] using h2
    | some n =>
      by_cases hflush :
          (r ++ [(⟨(if n = 0 then pOK else pFail) ++ l, fresh k⟩ : Button)]).length = kbRows
      · obtain ⟨rows, h1, h2⟩ :=
          ih (k + 1) (kb ++ [r ++ [⟨(if n = 0 then pOK else pFail) ++ l, fresh k⟩]]) []
        have harg : (k + 1) + ls.countP (fun x => (getAlerts x).isSome) =
            k + (l :: ls).countP (fun x => (getAlerts x).isSome) := by
          rw [List.countP_cons]
          simp [hga]
          omega
        rw [harg] at h1
        refine ⟨rows, ?_, ?_⟩
        · rw [← h1]
          simp only [jobsLoop, hga]
          rw [if_pos hflush]
        · rw [h2, List.filterMap_cons]
          simp [hga, List.map_append]
      · obtain ⟨rows, h1, h2⟩ :=
          ih (k + 1) kb (r ++ [⟨(if n = 0 then pOK else pFail) ++ l, fresh k⟩])
        have harg : (k + 1) + ls.countP (fun x => (getAlerts x).isSome) =
            k + (l :: ls).countP (fun x => (getAlerts x).isSome) := by
          rw [List.countP_cons]
          simp [hga]
          omega
        rw [harg] at h1
        refine ⟨rows, ?_, ?_⟩
        · rw [← h1]
          simp only [jobsLoop, hga]
          rw [if_neg hflush]
        · rw [h2, List.filterMap_cons]
          simp [hga, List.map_append]

theorem jobsLoop_rows_le (kbRows : Nat) (pOK pFail : Str) (fresh : Nat → Str)
    (getAlerts : Str → Option Nat) (hk : 0 < kbRows) :
    ∀ (labels : List Str) (k : Nat) (kb : KB) (r : List Button),
      (∀ row ∈ kb, row.length ≤ kbRows) → r.length < kbRows →
      ∀ row ∈ jobsLoop kbRows pOK pFail fresh getAlerts labels k kb r,
        row.length ≤ kbRows := by
  intro labels
  induction labels with
  | nil =>
    intro k kb r hkb hr row hrow
    simp only [jobsLoop] at hrow
    rcases List.mem_append.1 hrow with h | h
    · by_cases hpos : 0 < r.length
      · rw [if_pos hpos] at h
        rcases List.mem_append.1 h with h2 | h2
        · exact hkb row h2
        · simp only [List.mem_singleton] at h2
          exact h2 ▸ Nat.le_of_lt hr
      · rw [if_neg hpos] at h
        exact hkb row h
    · simp only [List.mem_singleton] at h
      subst h
      simpa using hk
  | cons l ls ih =>
    intro k kb r hkb hr
    cases hga : getAlerts l with
    | none =>
      intro row hrow
      refine ih k kb r hkb hr row ?_
      simpa [jobsLoop, hga] using hrow
    | some n =>
      by_cases hflush :
          (r ++ [(⟨(if n = 0 then pOK else pFail) ++ l, fresh k⟩ : Button)]).length = kbRows
      · intro row hrow
        refine ih (k + 1) (kb ++ [r ++ [⟨(if n = 0 then pOK else pFail) ++ l, fresh k⟩]]) []
          ?_ hk row ?_
        · intro x hx
          rcases List.mem_append.1 hx with h | h
          · exact hkb x h
          · simp only [List.mem_singleton] at h
            exact h ▸ Nat.le_of_eq hflush
        · simp only [jobsLoop, hga] at hrow
          rw [if_pos hflush] at hrow
          exact hrow
      · intro row hrow
        have hlt : (r ++ [(⟨(if n = 0 then pOK else pFail) ++ l, fresh k⟩ : Button)]).length < kbRows := by
          rw [List.length_append, List.length_singleton]
          rcases Nat.lt_or_ge (r.length + 1) kbRows with h | h
          · exact h
          · exact absurd (Nat.le_antisymm (by omega) h) (by simpa using hflush)
        refine ih (k + 1) kb (r ++ [⟨(if n = 0 then pOK else pFail) ++ l, fresh k⟩])
          hkb hlt row ?_
        simp only [jobsLoop, hga] at hrow
        rw [if_neg hflush] at hrow
        exact hrow

theorem filterMap_length_countP (getAlerts : Str → Option Nat) (f : Str → Nat → Str) :
    ∀ labels : List Str,
      (labels.filterMap (fun l => (getAlerts l).map (f l))).length +
        labels.countP (fun l => getAlerts l = none) = labels.length := by
  intro labels
  induction labels with
  | nil => simp
  | cons l ls ih =>
    cases h : getAlerts l with
    | none =>
      simp [List.filterMap_cons, List.countP_cons, h]
      omega
    | some n =>
      simp [List.filterMap_cons, List.countP_cons, h]
      omega

/-- The jobs-menu properties of claim C5: the keyboard ends with exactly one
close button in its own final row; the job buttons, in order, are the jobs
whose alert lookup succeeded, labelled with the OK marker exactly when zero
alerts are active and with the problem marker otherwise; the button count is
the number of job names minus the failed lookups; and no row is wider than
the configured keyboard row size. -/
def jobsMenuSpec (kbRows : Nat) (pOK pFail : Str) (fresh : Nat → Str)
    (getAlerts : Str → Option Nat) (labels : List Str) : Prop :=
  (newJobsKB kbRows pOK pFail fresh getAlerts labels).getLast? =
    some [⟨str "Close menu", fresh (labels.countP (fun l => (getAlerts l).isSome))⟩] ∧
  (newJobsKB kbRows pOK pFail fresh getAlerts labels).dropLast.flatten.map Button.label =
    labels.filterMap
      (fun l => (getAlerts l).map (fun n => (if n = 0 then pOK else pFail) ++ l)) ∧
  (newJobsKB kbRows pOK pFail fresh getAlerts labels).dropLast.flatten.length +
    labels.countP (fun l => getAlerts l = none) = labels.length ∧
  (newJobsKB kbRows pOK pFail fresh getAlerts labels).all
    (fun row => row.length ≤ kbRows) = true

/-- Claim C5: every successful jobs-menu build satisfies jobsMenuSpec. -/
theorem newJobsKB_spec (kbRows : Nat) (pOK pFail : Str) (fresh : Nat → Str)
    (getAlerts : Str → Option Nat) (labels : List Str) (hk : 0 < kbRows) :
    jobsMenuSpec kbRows pOK pFail fresh getAlerts labels := by
  obtain ⟨rows, h1, h2⟩ :=
    jobsLoop_structure kbRows pOK pFail fresh getAlerts labels 0 [] []
  rw [Nat.zero_add] at h1
  have hkb : newJobsKB kbRows pOK pFail fresh getAlerts labels =
      rows ++ [[⟨str "Close menu",
        fresh (labels.countP (fun l => (getAlerts l).isSome))⟩]] := h1
  have h2s : rows.flatten.map Button.label =
      labels.filterMap
        (fun l => (getAlerts l).map (fun n => (if n = 0 then pOK else pFail) ++ l)) := by
    simpa using h2
  refine ⟨?_, ?_, ?_, ?_⟩
  · rw [hkb, List.getLast?_concat]
  · rw [hkb, List.dropLast_concat, h2s]
  · rw [hkb, List.dropLast_concat]
    have hlen : rows.flatten.length =
        (labels.filterMap
          (fun l => (getAlerts l).map (fun n => (if n = 0 then pOK else pFail) ++ l))).length := by
      rw [← h2s, List.length_map]
    rw [hlen]
    exact filterMap_length_countP getAlerts
      (fun l n => (if n = 0 then pOK else pFail) ++ l) labels
  · rw [List.all_eq_true]
    intro row hrow
    simpa using jobsLoop_rows_le kbRows pOK pFail fresh getAlerts hk labels 0 [] []
      (by simp) (by simpa using hk) row hrow

theorem newJobsKB_spec_witness :
    0 < 2 ∧ jobsMenuSpec 2 (str "OK ") (str "FAIL ") (fun n => List.replicate n 'k')
      (fun l => if l = str "api" then some 0 else some 1) [str "api", str "db"] :=
  ⟨by decide,
    newJobsKB_spec 2 (str "OK ") (str "FAIL ") (fun n => List.replicate n 'k')
      (fun l => if l = str "api" then some 0 else some 1) [str "api", str "db"] (by decide)⟩

/-- An active scrape target of the monitoring service: its label set (Go map
access yields the empty string for a missing label). -/
structure Target where
  labels : List (Str × Str)
deriving DecidableEq

/-- Go map indexing with the empty-string default. -/
def lookupLabel : List (Str × Str) → Str → Str
  | [], _ => []
  | (k1, v) :: rest, k => if k1 = k then v else lookupLabel rest k

/-- Lexicographic character-list comparison, standing in for the Go string
less-than used by the sort. -/
def strLt : Str → Str → Bool
  | _, [] => false
  | [], _ :: _ => true
  | a :: as, b :: bs => if a < b then true else if b < a then false else strLt as bs

def insertByInstance (t : Target) : List Target → List Target
  | [] => [t]
  | u :: us =>
    if strLt (lookupLabel u.labels (str "instance")) (lookupLabel t.labels (str "instance")) then
      u :: insertByInstance t us
    else
      t :: u :: us

/-- The sort of targets by their instance label performed before the loop. -/
def sortByInstance : List Target → List Target
  | [] => []
  | t :: ts => insertByInstance t (sortByInstance ts)

/-- The button loop of newTargetsKB. The branch for a target with a missing
job or instance label only logs (the json.Marshal of a target struct cannot
fail, so its error branch with the continue statement is unreachable) and does
not skip, so it leaves no trace in this model; the loop then skips targets of
other jobs and targets whose alert lookup fails. The targets keyboard has no
close row. -/
def targetsLoop (kbRows : Nat) (pOK pFail : Str) (fresh : Nat → Str)
    (jobName : Str) (getAlerts : Str → Option Nat) :
    List Target → Nat → KB → List Button → KB
  | [], _, kb, r => if 0 < r.length then kb ++ [r] else kb
  | t :: ts, k, kb, r =>
    if lookupLabel t.labels (str "job") ≠ jobName then
      targetsLoop kbRows pOK pFail fresh jobName getAlerts ts k kb r
    else
      match getAlerts (lookupLabel t.labels (str "instance")) with
      | none => targetsLoop kbRows pOK pFail fresh jobName getAlerts ts k kb r
      | some n =>
        let btn : Button :=
          ⟨(if n = 0 then pOK else pFail) ++ lookupLabel t.labels (str "instance"), fresh k⟩
        let r1 := r ++ [btn]
        if r1.length = kbRows then
          targetsLoop kbRows pOK pFail fresh jobName getAlerts ts (k + 1) (kb ++ [r1]) []
        else
          targetsLoop kbRows pOK pFail fresh jobName getAlerts ts (k + 1) kb r1

/-- newTargetsKB on a successful target-inventory query. -/
def newTargetsKB (kbRows : Nat) (pOK pFail : Str) (fresh : Nat → Str)
    (jobName : Str) (getAlerts : Str → Option Nat) (targets : List Target) : KB :=
  targetsLoop kbRows pOK pFail fresh jobName getAlerts (sortByInstance targets) 0 [] []

/-- Claim C7, divergence: a target that carries the requested job label but no
instance label is not skipped: the missing-label branch logs without a
continue statement, so the target falls through to the job comparison and,
its job matching, produces a button with an empty instance name. -/
theorem newTargetsKB_missing_instance_button :
    newTargetsKB 2 (str "OK ") (str "FAIL ") (fun _ => str "tok") (str "api")
      (fun _ => some 0) [⟨[(str "job", str "api")]⟩] =
      [[⟨str "OK ", str "tok"⟩]] := by
  decide

/-! ## Webhook ingress (handleHTTP) -/

/-- A deserialized webhook payload, restricted to the fields the silence
button decision reads: status and the shared group labels. -/
structure AlertData where
  status : Str
  groupLabels : List (Str × Str)
deriving DecidableEq

/-- The silence-button section of handleHTTP: when the group is firing and
both the instance and alertname group labels are non-empty, create one cache
entry of type silence binding those two labels and attach a one-button
keyboard carrying the token; otherwise leave the message without markup. -/
def handleHTTPSilenceButton (data : AlertData) (cacheID : Str) (cache : Store) :
    Option KB × Store :=
  if data.status = str "firing" ∧
      0 < (lookupLabel data.groupLabels (str "instance")).length ∧
      0 < (lookupLabel data.groupLabels (str "alertname")).length then
    (some [[⟨str "Silence", cacheID⟩]],
      storeSet cache cacheID
        ⟨str "silence",
          [(str "instance", lookupLabel data.groupLabels (str "instance")),
           (str "alertname", lookupLabel data.groupLabels (str "alertname"))]⟩)
  else
    (none, cache)

/-- Claim C6: the outbound webhook message carries exactly one Silence button,
whose stored intent has type silence with the instance and alertname group
labels bound, precisely when the payload status is firing and both labels are
non-empty; in every other case no button is attached and the store is
untouched. -/
theorem handleHTTP_silence_button (data : AlertData) (cacheID : Str) (cache : Store) :
    ((handleHTTPSilenceButton data cacheID cache).1 =
      if data.status = str "firing" ∧
          lookupLabel data.groupLabels (str "instance") ≠ [] ∧
          lookupLabel data.groupLabels (str "alertname") ≠ [] then
        some [[⟨str "Silence", cacheID⟩]]
      else none) ∧
    (storeGet (handleHTTPSilenceButton data cacheID cache).2 cacheID =
      if data.status = str "firing" ∧
          lookupLabel data.groupLabels (str "instance") ≠ [] ∧
          lookupLabel data.groupLabels (str "alertname") ≠ [] then
        some ⟨str "silence",
          [(str "instance", lookupLabel data.groupLabels (str "instance")),
           (str "alertname", lookupLabel data.groupLabels (str "alertname"))]⟩
      else storeGet cache cacheID) := by
  by_cases h : data.status = str "firing" ∧
      lookupLabel data.groupLabels (str "instance") ≠ [] ∧
      lookupLabel data.groupLabels (str "alertname") ≠ []
  · have hc : data.status = str "firing" ∧
        0 < (lookupLabel data.groupLabels (str "instance")).length ∧
        0 < (lookupLabel data.groupLabels (str "alertname")).length :=
      ⟨h.1, List.length_pos.2 h.2.1, List.length_pos.2 h.2.2⟩
    rw [if_pos h, if_pos h]
    constructor
    · simp [handleHTTPSilenceButton, hc]
    · simp only [handleHTTPSilenceButton, if_pos hc]
      exact storeGet_storeSet cache cacheID _
  · have hc : ¬ (data.status = str "firing" ∧
        0 < (lookupLabel data.groupLabels (str "instance")).length ∧
        0 < (lookupLabel data.groupLabels (str "alertname")).length) := by
      intro hcon
      exact h ⟨hcon.1, List.length_pos.1 hcon.2.1, List.length_pos.1 hcon.2.2⟩
    rw [if_neg h, if_neg h]
    constructor
    · simp [handleHTTPSilenceButton, hc]
    · simp [handleHTTPSilenceButton, hc]

/-! ## Command handlers (processMessage, alerts and silences branches)

The alerting service results are parameters: the functions below model the
branch taken after a successful query, as the sequence of checks performed on
the command arguments and the reply that is built. -/

/-- An active alert as returned by GetAlerts (only its presence matters). -/
structure Alert where
  labels : List (Str × Str)
deriving DecidableEq

/-- An alertmanager silence; state is the silence status state field. -/
structure Silence where
  state : Str
deriving DecidableEq

/-- The reply produced by the alerts branch of processMessage. -/
inductive AlertsReply
  | message (text : Str)
  | rawJSON (alerts : List Alert)
  | templated (tmplPath : Str) (alerts : List Alert)
deriving DecidableEq

/-- The alerts branch of processMessage: argument validation, the fixed reply
on an empty alert list, then raw JSON when no gettable-alerts template is
configured or the argument json was given, else template rendering. -/
def processMessageAlerts (gettableAlertsTmplPath args : Str)
    (alerts : List Alert) : AlertsReply :=
  let argsArr := stringsSplit ' ' args
  if 1 < argsArr.length then .message (str "Too many arguments.")
  else if (argsArr.headD []).length ≠ 0 ∧ argsArr.headD [] ≠ str "json" then
    .message (str "Unknown argument.")
  else if alerts.length = 0 then .message (str "No active alerts found.")
  else if gettableAlertsTmplPath.length = 0 ∨ argsArr.headD [] = str "json" then
    .rawJSON alerts
  else .templated gettableAlertsTmplPath alerts

/-- The reply produced by the silences branch of processMessage. -/
inductive SilencesReply
  | message (text : Str)
  | rawJSON (silences : List Silence)
  | templated (tmplPath : Str) (silences : List Silence)
deriving DecidableEq

/-- The silences branch of processMessage: argument validation, filter to the
active silences, the fixed reply when none remain, then raw JSON when the
GettableAlertsTemplatePath config is empty or the argument json was given,
else rendering through the SilencesTemplatePath template. -/
def processMessageSilences (gettableAlertsTmplPath silencesTmplPath args : Str)
    (silences : List Silence) : SilencesReply :=
  let argsArr := stringsSplit ' ' args
  if 1 < argsArr.length then .message (str "Too many arguments.")
  else if (argsArr.headD []).length ≠ 0 ∧ argsArr.headD [] ≠ str "json" then
    .message (str "Unknown argument.")
  else
    let activeSilences := silences.filter (fun s => s.state = str "active")
    if activeSilences.length = 0 then .message (str "No active silences found.")
    else if gettableAlertsTmplPath.length = 0 ∨ argsArr.headD [] = str "json" then
      .rawJSON activeSilences
    else .templated silencesTmplPath activeSilences

/-- Claim C8, divergence: with a silences template configured but no
gettable-alerts template, a plain /silences command with an active silence
replies with raw JSON, because the branch condition tests the gettable-alerts
template path while the rendering call uses the silences template path. -/
theorem processMessageSilences_template_bug :
    processMessageSilences [] (str "silences.tmpl") [] [⟨str "active"⟩] =
      .rawJSON [⟨str "active"⟩] ∧
    processMessageSilences [] (str "silences.tmpl") [] [⟨str "active"⟩] ≠
      .templated (str "silences.tmpl") [⟨str "active"⟩] := by
  decide

/-- Claim C10: a valid /alerts command whose alert query returns the empty
list replies with exactly the fixed text, taking neither the JSON path nor
the template path, whatever the template configuration and whether or not
the json argument was given. -/
theorem processMessageAlerts_empty (gettableAlertsTmplPath args : Str)
    (h1 : ¬ 1 < (stringsSplit ' ' args).length)
    (h2 : ((stringsSplit ' ' args).headD []).length = 0 ∨
      (stringsSplit ' ' args).headD [] = str "json") :
    processMessageAlerts gettableAlertsTmplPath args [] =
      .message (str "No active alerts found.") := by
  have h2n : ¬ (((stringsSplit ' ' args).headD []).length ≠ 0 ∧
      (stringsSplit ' ' args).headD [] ≠ str "json") := by
    rcases h2 with h | h
    · exact fun hcon => hcon.1 h
    · exact fun hcon => hcon.2 h
  simp only [processMessageAlerts]
  rw [if_neg h1, if_neg h2n, if_pos (by simp : ([] : List Alert).length = 0)]

theorem processMessageAlerts_empty_witness :
    processMessageAlerts (str "a.tmpl") (str "json") [] =
      .message (str "No active alerts found.") :=
  processMessageAlerts_empty (str "a.tmpl") (str "json") (by decide) (by decide)
